import Mathlib

/- Verification of the VisionWorkbench interest-point detection core:
   src/vw/InterestPoint/Detector.h and src/vw/InterestPoint/Descriptor.h.
   Machine floating-point values are modelled as exact rationals.  The external
   collaborators (pixel-container abstraction, extremum finder, localizer,
   weighted-histogram utilities) are modelled from the specification where
   noted in the doc comments. -/

namespace VW

/-- InterestPoint record (Descriptor.h, lines 41-86): subpixel location (x, y),
scale, integer location (ix, iy), orientation, interest score and descriptor. -/
structure InterestPoint where
  x : ℚ
  y : ℚ
  scale : ℚ
  ix : ℤ
  iy : ℤ
  orientation : ℚ
  interest : ℚ
  descriptor : List ℚ
deriving DecidableEq, Repr

/-- The point comparator operator< (Descriptor.h, lines 83-85): p < q holds
exactly when q.interest < p.interest, so an ascending sort by this comparator
places higher-interest points first. -/
def ipLt (p q : InterestPoint) : Prop := q.interest < p.interest

/-- Error model for vw_throw of ArgumentErr. -/
inductive VwError
| argumentErr
deriving DecidableEq, Repr

/-- InterestPoint indexing operator[] (Descriptor.h, lines 77-81): index 0
returns x, index 1 returns y, any other index throws ArgumentErr. -/
def ipIndex (p : InterestPoint) (index : ℤ) : Except VwError ℚ :=
  if index = 0 then Except.ok p.x
  else if index = 1 then Except.ok p.y
  else Except.error VwError.argumentErr

/-- The non-strict descending-interest order induced by the comparator: the
sorted list produced by std list sort satisfies, for a before b, not (b < a),
which for ipLt is b.interest ≤ a.interest. -/
def ipDescLe (p q : InterestPoint) : Prop := q.interest ≤ p.interest

instance decIpDescLe : DecidableRel ipDescLe :=
  fun p q => inferInstanceAs (Decidable (q.interest ≤ p.interest))

instance totalIpDescLe : IsTotal InterestPoint ipDescLe :=
  ⟨fun p q => (le_total q.interest p.interest).imp (fun h => h) (fun h => h)⟩

instance transIpDescLe : IsTrans InterestPoint ipDescLe :=
  ⟨fun _ _ _ h1 h2 => le_trans h2 h1⟩

/-- Modelled from the spec: std list sort (external container semantics) is a
stable comparison sort by the point comparator; insertion sort realises it. -/
def sort_points (pts : List InterestPoint) : List InterestPoint :=
  List.insertionSort ipDescLe pts

/-- The cull stage of process_image (Detector.h, lines 242-246): sort the list
with the point comparator, then, when max_points is positive and smaller than
the list size, truncate to the first max_points entries. -/
def cull (maxPoints : ℤ) (pts : List InterestPoint) : List InterestPoint :=
  let sorted := sort_points pts
  if 0 < maxPoints ∧ maxPoints < (sorted.length : ℤ) then
    sorted.take maxPoints.toNat
  else sorted

theorem sort_points_pairwise (pts : List InterestPoint) :
    List.Pairwise ipDescLe (sort_points pts) :=
  List.sorted_insertionSort ipDescLe pts

theorem sort_points_perm (pts : List InterestPoint) :
    List.Perm (sort_points pts) pts :=
  List.perm_insertionSort ipDescLe pts

theorem sort_points_length (pts : List InterestPoint) :
    (sort_points pts).length = pts.length :=
  List.length_insertionSort ipDescLe pts

/-- C1: for max_points = N > 0 the cull stage outputs exactly min(N, input
length) points; every retained interest score is at least every discarded
interest score (the discarded points being the tail dropped from the sorted
list); with N = 0 no point is discarded (the output is a permutation of the
input); and the comparator orders points by descending interest:
ipLt p q holds exactly when q.interest < p.interest. -/
theorem C1_cull_correct (N : ℤ) (pts : List InterestPoint) :
    (0 < N → ((cull N pts).length : ℤ) = min N (pts.length : ℤ)) ∧
    (∀ p ∈ cull N pts, ∀ q ∈ (sort_points pts).drop (cull N pts).length,
      q.interest ≤ p.interest) ∧
    List.Perm (cull 0 pts) pts ∧
    (∀ p q : InterestPoint, ipLt p q ↔ q.interest < p.interest) := by
  refine ⟨?_, ?_, ?_, fun p q => Iff.rfl⟩
  · intro hN
    by_cases hlt : N < ((sort_points pts).length : ℤ)
    · have hcond : 0 < N ∧ N < ((sort_points pts).length : ℤ) := ⟨hN, hlt⟩
      simp only [cull, if_pos hcond]
      rw [List.length_take, sort_points_length]
      rw [sort_points_length] at hlt
      push_cast
      omega
    · have hcond : ¬ (0 < N ∧ N < ((sort_points pts).length : ℤ)) := by
        intro h
        exact hlt h.2
      simp only [cull, if_neg hcond]
      rw [sort_points_length] at hlt ⊢
      omega
  · intro p hp q hq
    by_cases hcond : 0 < N ∧ N < ((sort_points pts).length : ℤ)
    · simp only [cull, if_pos hcond] at hp hq ⊢
      have hlen : (List.take N.toNat (sort_points pts)).length = N.toNat := by
        rw [List.length_take]
        omega
      rw [hlen] at hq
      have hpw : List.Pairwise ipDescLe
          (List.take N.toNat (sort_points pts) ++ List.drop N.toNat (sort_points pts)) := by
        rw [List.take_append_drop]
        exact sort_points_pairwise pts
      exact (List.pairwise_append.mp hpw).2.2 p hp q hq
    · simp only [cull, if_neg hcond] at hp hq ⊢
      rw [List.drop_length] at hq
      exact absurd hq (List.not_mem_nil q)
  · have hcond : ¬ ((0:ℤ) < 0 ∧ (0:ℤ) < ((sort_points pts).length : ℤ)) := by
      intro h
      exact lt_irrefl 0 h.1
    simp only [cull, if_neg hcond]
    exact sort_points_perm pts

/-- Concrete points for witnesses. -/
def wpt (v : ℚ) : InterestPoint :=
  { x := 0, y := 0, scale := 1, ix := 0, iy := 0, orientation := 0,
    interest := v, descriptor := [] }

def wpts : List InterestPoint := [wpt 1, wpt 3, wpt 2]

/-- Witness for C1 at N = 2 on a concrete three-point list. -/
theorem C1_cull_correct_witness :
    ((cull 2 wpts).length : ℤ) = min 2 (wpts.length : ℤ) ∧
    (∀ p ∈ cull 2 wpts, ∀ q ∈ (sort_points wpts).drop (cull 2 wpts).length,
      q.interest ≤ p.interest) ∧
    List.Perm (cull 0 wpts) wpts ∧
    (∀ p q : InterestPoint, ipLt p q ↔ q.interest < p.interest) :=
  ⟨(C1_cull_correct 2 wpts).1 (by decide),
   (C1_cull_correct 2 wpts).2.1,
   (C1_cull_correct 2 wpts).2.2.1,
   (C1_cull_correct 2 wpts).2.2.2⟩

/-- C8: for every InterestPoint p, indexing at 0 returns x and at 1 returns y,
and indexing with any other integer raises an ArgumentErr invalid-argument
failure rather than returning a value. -/
theorem C8_ipIndex_bounds (p : InterestPoint) (i : ℤ) :
    ipIndex p 0 = Except.ok p.x ∧
    ipIndex p 1 = Except.ok p.y ∧
    (i ≠ 0 → i ≠ 1 → ipIndex p i = Except.error VwError.argumentErr) := by
  refine ⟨rfl, rfl, fun h0 h1 => ?_⟩
  simp [ipIndex, h0, h1]

/-- Witness for C8 at the out-of-range index 5. -/
theorem C8_ipIndex_bounds_witness :
    ipIndex (wpt 1) 0 = Except.ok (wpt 1).x ∧
    ipIndex (wpt 1) 1 = Except.ok (wpt 1).y ∧
    ipIndex (wpt 1) 5 = Except.error VwError.argumentErr :=
  ⟨(C8_ipIndex_bounds (wpt 1) 5).1,
   (C8_ipIndex_bounds (wpt 1) 5).2.1,
   (C8_ipIndex_bounds (wpt 1) 5).2.2 (by decide) (by decide)⟩

/-- A plane of float pixel values, as a function of column and row (the pixel
container abstraction is an external collaborator). -/
def Plane : Type := ℤ → ℤ → ℚ

/-- Modelled from the spec: per-plane derived data (ImageInterestData, from
InterestData.h, which is not in src): a source plane, the cached gradient
planes, and the operator-supplied interest plane. -/
structure ImgData where
  source : Plane
  gradient_x : Plane
  gradient_y : Plane
  interest : Plane

/-- Peak-type declaration (InterestPeakType trait; the IP_MAX / IP_MIN /
IP_MINMAX constants come from Extrema.h, which is not in src). -/
inductive PeakType
| ipMax
| ipMin
| ipMinMax
deriving DecidableEq, Repr

/-- Smoothed squared x-gradient entry of the Harris structure matrix
(InterestOperator header, lines 679-680); the separable convolution with a
Gaussian kernel sized from the scale is external and abstracted as smoothAt. -/
def harris_Ix2 (smoothAt : ℚ → Plane → Plane) (d : ImgData) (scale : ℚ) : Plane :=
  smoothAt scale (fun i j => d.gradient_x i j * d.gradient_x i j)

/-- Smoothed squared y-gradient entry (lines 681-682). -/
def harris_Iy2 (smoothAt : ℚ → Plane → Plane) (d : ImgData) (scale : ℚ) : Plane :=
  smoothAt scale (fun i j => d.gradient_y i j * d.gradient_y i j)

/-- Smoothed mixed-gradient entry (lines 683-684). -/
def harris_Ixy (smoothAt : ℚ → Plane → Plane) (d : ImgData) (scale : ℚ) : Plane :=
  smoothAt scale (fun i j => d.gradient_x i j * d.gradient_y i j)

/-- Trace of the structure matrix (line 687). -/
def harris_trace (smoothAt : ℚ → Plane → Plane) (d : ImgData) (scale : ℚ) : Plane :=
  fun i j => harris_Ix2 smoothAt d scale i j + harris_Iy2 smoothAt d scale i j

/-- Determinant of the structure matrix (line 688). -/
def harris_det (smoothAt : ℚ → Plane → Plane) (d : ImgData) (scale : ℚ) : Plane :=
  fun i j =>
    harris_Ix2 smoothAt d scale i j * harris_Iy2 smoothAt d scale i j -
      harris_Ixy smoothAt d scale i j * harris_Ixy smoothAt d scale i j

/-- HarrisInterestOperator operator() (InterestOperator header, lines 672-696):
fills the interest plane with Noble's measure det/(trace + 1e-6) when the
configured k is negative, and with det - k*trace*trace otherwise. -/
def harris_compute (smoothAt : ℚ → Plane → Plane) (k : ℚ) (d : ImgData)
    (scale : ℚ) : ImgData :=
  if k < 0 then
    { d with interest := fun i j =>
        harris_det smoothAt d scale i j /
          (harris_trace smoothAt d scale i j + 1/1000000) }
  else
    { d with interest := fun i j =>
        harris_det smoothAt d scale i j -
          k * harris_trace smoothAt d scale i j * harris_trace smoothAt d scale i j }

/-- HarrisInterestOperator::threshold (lines 706-709): the point passes when
its interest exceeds the configured threshold. -/
def harris_threshold (threshold : ℚ) (pt : InterestPoint) (_d : ImgData) : Bool :=
  decide (threshold < pt.interest)

/-- Constructor default threshold of HarrisInterestOperator (line 666): 1e-5. -/
def harris_default_threshold : ℚ := 1/100000

/-- Constructor default k of HarrisInterestOperator (line 666): -1. -/
def harris_default_k : ℚ := -1

/-- InterestPeakType specialization for Harris (line 713): IP_MAX. -/
def harris_peak_type : PeakType := PeakType.ipMax

/-- Spec formula (section 4.5): Noble's measure det/(trace + 1e-6). -/
def noble_measure (dt tr : ℚ) : ℚ := dt / (tr + 1/1000000)

/-- Spec formula (section 4.5): classic Harris measure det - k*trace^2. -/
def classic_harris (k dt tr : ℚ) : ℚ := dt - k * (tr * tr)

/-- LogInterestOperator operator() (InterestOperator header, lines 750-753):
the interest plane is scale times the Laplacian filter of the source plane;
the Laplacian filter is external and abstracted as lap. -/
def log_compute (lap : Plane → Plane) (d : ImgData) (scale : ℚ) : ImgData :=
  { d with interest := fun i j => scale * lap d.source i j }

/-- LogInterestOperator::threshold (lines 755-758): the point passes when the
absolute value of its interest exceeds the configured threshold. -/
def log_threshold (threshold : ℚ) (pt : InterestPoint) (_d : ImgData) : Bool :=
  decide (threshold < |pt.interest|)

/-- Constructor default threshold of LogInterestOperator (line 741): 0.03. -/
def log_default_threshold : ℚ := 3/100

/-- InterestPeakType specialization for LoG (line 762): IP_MINMAX. -/
def log_peak_type : PeakType := PeakType.ipMinMax

/-- Spec formula (section 4.6): scale-normalized LoG blob response. -/
def spec_log_score (lap : Plane → Plane) (src : Plane) (scale : ℚ) : Plane :=
  fun i j => scale * lap src i j

/-- C6: for the Harris operator, with k negative the interest image equals
Noble's measure det/(trace + 1e-6) of the smoothed structure matrix, with k
nonnegative it equals det - k*trace^2; the declared peak type is maxima only;
the threshold predicate holds exactly when the interest exceeds the configured
threshold; and the defaults are threshold 1e-5 and k = -1. -/
theorem C6_harris_operator (smoothAt : ℚ → Plane → Plane) (k threshold scale : ℚ)
    (d : ImgData) (pt : InterestPoint) (dd : ImgData) :
    (k < 0 → ∀ i j : ℤ, (harris_compute smoothAt k d scale).interest i j =
      noble_measure (harris_det smoothAt d scale i j) (harris_trace smoothAt d scale i j)) ∧
    (0 ≤ k → ∀ i j : ℤ, (harris_compute smoothAt k d scale).interest i j =
      classic_harris k (harris_det smoothAt d scale i j) (harris_trace smoothAt d scale i j)) ∧
    harris_peak_type = PeakType.ipMax ∧
    (harris_threshold threshold pt dd = true ↔ threshold < pt.interest) ∧
    harris_default_threshold = 1/100000 ∧
    harris_default_k = -1 := by
  refine ⟨fun hk i j => ?_, fun hk i j => ?_, rfl, ?_, rfl, rfl⟩
  · rw [harris_compute, if_pos hk]
    rfl
  · rw [harris_compute, if_neg (not_lt.mpr hk)]
    show harris_det smoothAt d scale i j -
        k * harris_trace smoothAt d scale i j * harris_trace smoothAt d scale i j =
      classic_harris k (harris_det smoothAt d scale i j) (harris_trace smoothAt d scale i j)
    rw [classic_harris, mul_assoc]
  · exact decide_eq_true_iff

/-- Constant zero plane for witnesses. -/
def wplane : Plane := fun _ _ => 0

def wdata : ImgData := ⟨wplane, wplane, wplane, wplane⟩

/-- Witness for C6, applying the theorem at k = -1 for the Noble branch and at
k = 2 for the classic branch. -/
theorem C6_harris_operator_witness :
    (∀ i j : ℤ, (harris_compute (fun _ p => p) (-1) wdata 1).interest i j =
      noble_measure (harris_det (fun _ p => p) wdata 1 i j)
        (harris_trace (fun _ p => p) wdata 1 i j)) ∧
    (∀ i j : ℤ, (harris_compute (fun _ p => p) 2 wdata 1).interest i j =
      classic_harris 2 (harris_det (fun _ p => p) wdata 1 i j)
        (harris_trace (fun _ p => p) wdata 1 i j)) ∧
    harris_peak_type = PeakType.ipMax ∧
    (harris_threshold 0 (wpt 1) wdata = true ↔ (0:ℚ) < (wpt 1).interest) ∧
    harris_default_threshold = 1/100000 ∧
    harris_default_k = -1 :=
  ⟨(C6_harris_operator (fun _ p => p) (-1) 0 1 wdata (wpt 1) wdata).1 (by decide),
   (C6_harris_operator (fun _ p => p) 2 0 1 wdata (wpt 1) wdata).2.1 (by decide),
   (C6_harris_operator (fun _ p => p) 2 0 1 wdata (wpt 1) wdata).2.2.1,
   (C6_harris_operator (fun _ p => p) 2 0 1 wdata (wpt 1) wdata).2.2.2.1,
   (C6_harris_operator (fun _ p => p) 2 0 1 wdata (wpt 1) wdata).2.2.2.2.1,
   (C6_harris_operator (fun _ p => p) 2 0 1 wdata (wpt 1) wdata).2.2.2.2.2⟩

/-- C7: for the LoG operator the interest image equals scale times the
Laplacian of the source plane; the declared peak type is both maxima and
minima; the threshold predicate holds exactly when the absolute interest
exceeds the configured threshold; and the default threshold is 0.03. -/
theorem C7_log_operator (lap : Plane → Plane) (threshold scale : ℚ)
    (d : ImgData) (pt : InterestPoint) (dd : ImgData) :
    (∀ i j : ℤ, (log_compute lap d scale).interest i j =
      spec_log_score lap d.source scale i j) ∧
    log_peak_type = PeakType.ipMinMax ∧
    (log_threshold threshold pt dd = true ↔ threshold < |pt.interest|) ∧
    log_default_threshold = 3/100 :=
  ⟨fun _ _ => rfl, rfl, decide_eq_true_iff, rfl⟩

/-- C10: the threshold predicates of both operators depend only on the point's
interest value and the configured threshold: on points with equal interest the
result is the same irrespective of the data argument and all other fields. -/
theorem C10_threshold_noninterference (threshold : ℚ) (p1 p2 : InterestPoint)
    (d1 d2 : ImgData) (h : p1.interest = p2.interest) :
    harris_threshold threshold p1 d1 = harris_threshold threshold p2 d2 ∧
    log_threshold threshold p1 d1 = log_threshold threshold p2 d2 := by
  rw [harris_threshold, harris_threshold, log_threshold, log_threshold, h]
  exact ⟨rfl, rfl⟩

/-- Points with equal interest but different location, scale, orientation and
descriptor, for the C10 witness. -/
def wptA : InterestPoint :=
  { x := 1, y := 2, scale := 3, ix := 1, iy := 2, orientation := 1,
    interest := 7, descriptor := [1] }

def wptB : InterestPoint :=
  { x := 9, y := 8, scale := 5, ix := 9, iy := 8, orientation := 2,
    interest := 7, descriptor := [] }

def wdataB : ImgData := ⟨fun _ _ => 4, fun _ _ => 5, fun _ _ => 6, fun _ _ => 7⟩

/-- Witness for C10 on two points agreeing only in interest, with different
data arguments. -/
theorem C10_threshold_noninterference_witness :
    harris_threshold 3 wptA wdata = harris_threshold 3 wptB wdataB ∧
    log_threshold 3 wptA wdata = log_threshold 3 wptB wdataB :=
  C10_threshold_noninterference 3 wptA wptB wdata wdataB (by decide)

/-- An axis-aligned integer bounding box (BBox2i, external math support):
minimum corner and size. -/
structure BBox2i where
  minx : ℤ
  miny : ℤ
  width : ℤ
  height : ℤ
deriving DecidableEq, Repr

/-- A 2-D image: dimensions plus a pixel function (the generic pixel-container
abstraction is an external collaborator). -/
structure Image where
  cols : ℤ
  rows : ℤ
  px : ℤ → ℤ → ℚ

/-- crop (external pixel abstraction): the tile view whose pixel (i, j) reads
the source pixel offset by the bounding box minimum corner. -/
def crop_image (img : Image) (b : BBox2i) : Image :=
  { cols := b.width, rows := b.height,
    px := fun i j => img.px (b.minx + i) (b.miny + j) }

/-- Modelled from the spec: image_blocks (vw/Image/Manipulation.h, not in src)
partitions the image into a grid of non-overlapping tiles no larger than the
given dimension per side, iterated row-major. -/
def image_blocks (cols rows size : ℤ) : List BBox2i :=
  (List.range ((rows + size - 1) / size).toNat).flatMap (fun (bj : ℕ) =>
    (List.range ((cols + size - 1) / size).toNat).map (fun (bi : ℕ) =>
      { minx := size * (bi : ℤ), miny := size * (bj : ℤ),
        width := min size (cols - size * (bi : ℤ)),
        height := min size (rows - size * (bj : ℤ)) }))

/-- Per-tile translation applied in the tiling loop (Detector.h, lines
101-106): x, ix, y, iy are shifted by the tile origin; all other fields are
untouched. -/
def translate_pt (ox oy : ℤ) (p : InterestPoint) : InterestPoint :=
  { p with x := p.x + (ox : ℚ), ix := p.ix + ox,
           y := p.y + (oy : ℚ), iy := p.iy + oy }

/-- The tiling wrapper InterestDetectorBase::operator() (Detector.h, lines
75-114), parameterized by the conversion to single-channel float (pixel_cast
of channel_cast_rescale, external) and by the derived detector's
process_image.  With max dimension zero the driver runs once on the whole
converted image; otherwise each tile is processed, each returned point is
translated by the tile origin, and the per-tile lists are spliced onto the
end of the accumulated list in tile-iteration order. -/
def detect (conv : Image → Image) (proc : Image → List InterestPoint)
    (img : Image) (maxDim : ℤ) : List InterestPoint :=
  if maxDim = 0 then proc (conv img)
  else
    (image_blocks img.cols img.rows maxDim).foldl
      (fun acc b => acc ++ (proc (crop_image (conv img) b)).map (translate_pt b.minx b.miny))
      []

theorem foldl_append_eq_flatMap {α β : Type} (f : α → List β) :
    ∀ (l : List α) (acc : List β),
      l.foldl (fun a x => a ++ f x) acc = acc ++ l.flatMap f
  | [], acc => by simp
  | x :: l, acc => by
    rw [List.foldl_cons, foldl_append_eq_flatMap f l (acc ++ f x), List.flatMap_cons,
      List.append_assoc]

theorem detect_tiles (conv : Image → Image) (proc : Image → List InterestPoint)
    (img : Image) (maxDim : ℤ) (h : maxDim ≠ 0) :
    detect conv proc img maxDim =
      (image_blocks img.cols img.rows maxDim).flatMap
        (fun b => (proc (crop_image (conv img) b)).map (translate_pt b.minx b.miny)) := by
  rw [detect, if_neg h]
  exact foldl_append_eq_flatMap _ _ []

/-- C2: with a positive max tile dimension, detect returns exactly the
concatenation, in tile-iteration order, of the per-tile results with each
point translated by its tile origin on x, y, ix, iy and all other fields
unchanged; with max tile dimension zero, the driver's process_image runs
exactly once on the whole image converted to single-channel float. -/
theorem C2_tiling_wrapper (conv : Image → Image)
    (proc : Image → List InterestPoint) (img : Image) (maxDim : ℤ) :
    (detect conv proc img 0 = proc (conv img)) ∧
    (maxDim ≠ 0 → detect conv proc img maxDim =
      (image_blocks img.cols img.rows maxDim).flatMap
        (fun b => (proc (crop_image (conv img) b)).map (translate_pt b.minx b.miny))) ∧
    (∀ (ox oy : ℤ) (p : InterestPoint),
      (translate_pt ox oy p).x = p.x + (ox : ℚ) ∧
      (translate_pt ox oy p).y = p.y + (oy : ℚ) ∧
      (translate_pt ox oy p).ix = p.ix + ox ∧
      (translate_pt ox oy p).iy = p.iy + oy ∧
      (translate_pt ox oy p).scale = p.scale ∧
      (translate_pt ox oy p).orientation = p.orientation ∧
      (translate_pt ox oy p).interest = p.interest ∧
      (translate_pt ox oy p).descriptor = p.descriptor) := by
  exact ⟨by rw [detect, if_pos rfl], fun hd => detect_tiles conv proc img maxDim hd,
    fun ox oy p => ⟨rfl, rfl, rfl, rfl, rfl, rfl, rfl, rfl⟩⟩

/-- A concrete 4 by 4 image for witnesses. -/
def wimg : Image := { cols := 4, rows := 4, px := fun _ _ => 1 }

/-- Witness for C2 with the identity conversion, a constant single-point
detector, and tile dimension 2. -/
theorem C2_tiling_wrapper_witness :
    (detect id (fun _ => [wpt 1]) wimg 0 = [wpt 1]) ∧
    (detect id (fun _ => [wpt 1]) wimg 2 =
      (image_blocks wimg.cols wimg.rows 2).flatMap
        (fun b => ((fun (_ : Image) => [wpt 1]) (crop_image (id wimg) b)).map
          (translate_pt b.minx b.miny))) ∧
    (∀ (ox oy : ℤ) (p : InterestPoint),
      (translate_pt ox oy p).x = p.x + (ox : ℚ) ∧
      (translate_pt ox oy p).y = p.y + (oy : ℚ) ∧
      (translate_pt ox oy p).ix = p.ix + ox ∧
      (translate_pt ox oy p).iy = p.iy + oy ∧
      (translate_pt ox oy p).scale = p.scale ∧
      (translate_pt ox oy p).orientation = p.orientation ∧
      (translate_pt ox oy p).interest = p.interest ∧
      (translate_pt ox oy p).descriptor = p.descriptor) :=
  ⟨(C2_tiling_wrapper id (fun _ => [wpt 1]) wimg 2).1,
   (C2_tiling_wrapper id (fun _ => [wpt 1]) wimg 2).2.1 (by decide),
   (C2_tiling_wrapper id (fun _ => [wpt 1]) wimg 2).2.2⟩

/-- C-style cast of a float value to int: truncation toward zero. -/
def cTrunc (q : ℚ) : ℤ := if 0 ≤ q then ⌊q⌋ else ⌈q⌉

/-- The strict window bounds check of get_orientation (Detector.h, lines
148-150): the scaled window must lie in the valid interior of the planes; no
edge extension applies to this check. -/
def window_in_bounds (cols rows left top width : ℤ) : Prop :=
  0 ≤ left ∧ 0 ≤ top ∧ left + width < cols ∧ top + width < rows

instance decWindowInBounds (cols rows left top width : ℤ) :
    Decidable (window_in_bounds cols rows left top width) := by
  unfold window_in_bounds
  infer_instance

/-- get_orientation (Detector.h, lines 126-177).  The caller-supplied output
vector is the prevBuf argument and is cleared at entry; the fixed base half
width 5 is scaled by the sigma ratio and truncated.  When the window bounds
check passes, the weighted histogram of edge orientations over the window is
built, smoothed, and its modes converted to orientations mode*(2*pi/36) - pi.
The histogram pipeline (make_gaussian_kernel_2d, weighted_histogram,
smooth_weighted_histogram, find_weighted_histogram_mode, from
WeightedHistogram.h, not in src) is modelled from the spec as the abstract
modesOf function of the two planes and the window, and the float constant
M_PI as the abstract rational piV.  When the check fails the cleared (empty)
vector is returned; the function is total, so no failure is raised. -/
def get_orientation (piV : ℚ)
    (modesOf : Image → Image → ℤ → ℤ → ℤ → ℚ → List ℕ)
    (_prevBuf : List ℚ) (ori mag : Image) (i0 j0 : ℤ) (sigmaR : ℚ) : List ℚ :=
  let cleared : List ℚ := []
  let halfwidth : ℤ := cTrunc (5 * sigmaR + 1/2)
  let left := i0 - halfwidth
  let top := j0 - halfwidth
  let width := halfwidth * 2 + 1
  if window_in_bounds ori.cols ori.rows left top width then
    cleared ++ (modesOf ori mag left top width sigmaR).map
      (fun m => (m : ℚ) * (2 * piV / 36) - piV)
  else cleared

/-- InterestPointDetector::assign_orientations (Detector.h, lines 295-316),
threading the single shared orientation vector through the iterations: for
each point, get_orientation is called at the rounded location with the
default sigma ratio 1; with an empty result the point is kept unchanged;
otherwise the first mode overwrites the point's orientation in place and each
later mode inserts a clone of the point carrying that mode's orientation
immediately before the original (std list insert before the iterator). -/
def assign_orientations_aux (piV : ℚ)
    (modesOf : Image → Image → ℤ → ℤ → ℤ → ℚ → List ℕ) (ori mag : Image) :
    List ℚ → List InterestPoint → List InterestPoint
  | _, [] => []
  | buf, p :: rest =>
    let os := get_orientation piV modesOf buf ori mag
      (cTrunc (p.x + 1/2)) (cTrunc (p.y + 1/2)) 1
    match os with
    | [] => p :: assign_orientations_aux piV modesOf ori mag os rest
    | o :: more =>
      more.map (fun v => { p with orientation := v }) ++
        ({ p with orientation := o } ::
          assign_orientations_aux piV modesOf ori mag os rest)

/-- C4: when the orientation analysis window falls outside the valid interior
of the orientation/magnitude planes under the strict bounds check,
get_orientation produces zero orientations (the empty list, with no failure
raised since the function is total), and assign_orientations then retains the
point unchanged, its orientation field unmodified. -/
theorem C4_out_of_bounds_window (piV : ℚ)
    (modesOf : Image → Image → ℤ → ℤ → ℤ → ℚ → List ℕ) (ori mag : Image)
    (i0 j0 : ℤ) (sigmaR : ℚ) (buf : List ℚ) (p : InterestPoint)
    (rest : List InterestPoint) :
    (¬ window_in_bounds ori.cols ori.rows (i0 - cTrunc (5 * sigmaR + 1/2))
        (j0 - cTrunc (5 * sigmaR + 1/2)) (cTrunc (5 * sigmaR + 1/2) * 2 + 1) →
      get_orientation piV modesOf buf ori mag i0 j0 sigmaR = []) ∧
    (get_orientation piV modesOf buf ori mag
        (cTrunc (p.x + 1/2)) (cTrunc (p.y + 1/2)) 1 = [] →
      assign_orientations_aux piV modesOf ori mag buf (p :: rest) =
        p :: assign_orientations_aux piV modesOf ori mag [] rest) := by
  constructor
  · intro h
    simp only [get_orientation]
    rw [if_neg h]
  · intro h
    simp only [assign_orientations_aux, h]

/-- Constant-mode histogram pipeline and a larger plane for the orientation
witnesses. -/
def modesW : Image → Image → ℤ → ℤ → ℤ → ℚ → List ℕ := fun _ _ _ _ _ _ => [3]

def wimg20 : Image := { cols := 20, rows := 20, px := fun _ _ => 0 }

theorem cTrunc_five_one : cTrunc (5 * (1:ℚ) + 1/2) = 5 := by
  have h : 5 * (1:ℚ) + 1/2 = 11/2 := by norm_num
  rw [cTrunc, h, if_pos (by norm_num)]
  norm_num

theorem cTrunc_zero_half : cTrunc ((0:ℚ) + 1/2) = 0 := by
  have h : (0:ℚ) + 1/2 = 1/2 := by norm_num
  rw [cTrunc, h, if_pos (by norm_num)]
  norm_num

/-- Witness for C4: a point at the origin of a 20 by 20 plane, whose window
with half width 5 starts at -5 and fails the bounds check. -/
theorem C4_out_of_bounds_window_witness :
    get_orientation 0 modesW [7] wimg20 wimg20 0 0 1 = [] ∧
    assign_orientations_aux 0 modesW wimg20 wimg20 [7] (wpt 1 :: [wpt 2]) =
      wpt 1 :: assign_orientations_aux 0 modesW wimg20 wimg20 [] [wpt 2] :=
  ⟨(C4_out_of_bounds_window 0 modesW wimg20 wimg20 0 0 1 [7] (wpt 1) [wpt 2]).1
    (by rw [cTrunc_five_one]; decide),
   (C4_out_of_bounds_window 0 modesW wimg20 wimg20 0 0 1 [7] (wpt 1) [wpt 2]).2
    (by
      have hx : cTrunc ((wpt 1).x + 1/2) = 0 := cTrunc_zero_half
      have hy : cTrunc ((wpt 1).y + 1/2) = 0 := cTrunc_zero_half
      rw [hx, hy]
      exact (C4_out_of_bounds_window 0 modesW wimg20 wimg20 0 0 1 [7] (wpt 1)
        [wpt 2]).1 (by rw [cTrunc_five_one]; decide))⟩

/-- C5: whenever get_orientation returns a non-empty mode list for a point,
assign_orientations overwrites that point's orientation in place with the
first mode, and each subsequent mode yields a clone of the point — identical
in x, y, scale and interest — carrying that orientation, inserted adjacent to
(immediately before) the original rather than appended at the end; and
assign_orientations never decreases the number of points. -/
theorem C5_orientation_split (piV : ℚ)
    (modesOf : Image → Image → ℤ → ℤ → ℤ → ℚ → List ℕ) (ori mag : Image)
    (buf : List ℚ) (p : InterestPoint) (rest : List InterestPoint)
    (o : ℚ) (more : List ℚ) :
    (get_orientation piV modesOf buf ori mag
        (cTrunc (p.x + 1/2)) (cTrunc (p.y + 1/2)) 1 = o :: more →
      assign_orientations_aux piV modesOf ori mag buf (p :: rest) =
        more.map (fun v => { p with orientation := v }) ++
          ({ p with orientation := o } ::
            assign_orientations_aux piV modesOf ori mag (o :: more) rest)) ∧
    (∀ v : ℚ,
      ({ p with orientation := v } : InterestPoint).x = p.x ∧
      ({ p with orientation := v } : InterestPoint).y = p.y ∧
      ({ p with orientation := v } : InterestPoint).scale = p.scale ∧
      ({ p with orientation := v } : InterestPoint).interest = p.interest ∧
      ({ p with orientation := v } : InterestPoint).orientation = v) ∧
    (∀ (buf2 : List ℚ) (pts : List InterestPoint),
      pts.length ≤ (assign_orientations_aux piV modesOf ori mag buf2 pts).length) := by
  refine ⟨fun h => ?_, fun v => ⟨rfl, rfl, rfl, rfl, rfl⟩, fun buf2 pts => ?_⟩
  · simp only [assign_orientations_aux, h]
  · induction pts generalizing buf2 with
    | nil => simp [assign_orientations_aux]
    | cons q qs ih =>
      cases hos : get_orientation piV modesOf buf2 ori mag
          (cTrunc (q.x + 1/2)) (cTrunc (q.y + 1/2)) 1 with
      | nil =>
        simp only [assign_orientations_aux, hos, List.length_cons]
        exact Nat.succ_le_succ (ih [])
      | cons o2 more2 =>
        simp only [assign_orientations_aux, hos, List.length_append,
          List.length_map, List.length_cons]
        have h2 := ih (o2 :: more2)
        omega

/-- A point at (8, 8) on the 20 by 20 witness plane, whose window with half
width 5 passes the bounds check. -/
def wptC : InterestPoint :=
  { x := 8, y := 8, scale := 1, ix := 8, iy := 8, orientation := 5,
    interest := 1, descriptor := [] }

/-- Constant two-mode histogram pipeline for the C5 witness. -/
def modesW2 : Image → Image → ℤ → ℤ → ℤ → ℚ → List ℕ := fun _ _ _ _ _ _ => [3, 9]

theorem cTrunc_eight_half : cTrunc ((8:ℚ) + 1/2) = 8 := by
  have h : (8:ℚ) + 1/2 = 17/2 := by norm_num
  rw [cTrunc, h, if_pos (by norm_num)]
  norm_num

theorem get_orientation_wptC :
    get_orientation 0 modesW2 [7] wimg20 wimg20
      (cTrunc (wptC.x + 1/2)) (cTrunc (wptC.y + 1/2)) 1 = 0 :: [0] := by
  have hx : cTrunc (wptC.x + 1/2) = 8 := cTrunc_eight_half
  have hy : cTrunc (wptC.y + 1/2) = 8 := cTrunc_eight_half
  rw [hx, hy]
  simp only [get_orientation, cTrunc_five_one]
  rw [if_pos (by decide)]
  norm_num [modesW2]

/-- Witness for C5 on a concrete point with a two-mode result. -/
theorem C5_orientation_split_witness :
    (assign_orientations_aux 0 modesW2 wimg20 wimg20 [7] (wptC :: [wpt 2]) =
      [(0:ℚ)].map (fun v => { wptC with orientation := v }) ++
        ({ wptC with orientation := 0 } ::
          assign_orientations_aux 0 modesW2 wimg20 wimg20 (0 :: [0]) [wpt 2])) ∧
    (∀ v : ℚ,
      ({ wptC with orientation := v } : InterestPoint).x = wptC.x ∧
      ({ wptC with orientation := v } : InterestPoint).y = wptC.y ∧
      ({ wptC with orientation := v } : InterestPoint).scale = wptC.scale ∧
      ({ wptC with orientation := v } : InterestPoint).interest = wptC.interest ∧
      ({ wptC with orientation := v } : InterestPoint).orientation = v) ∧
    (∀ (buf2 : List ℚ) (pts : List InterestPoint),
      pts.length ≤ (assign_orientations_aux 0 modesW2 wimg20 wimg20 buf2 pts).length) :=
  ⟨(C5_orientation_split 0 modesW2 wimg20 wimg20 [7] wptC [wpt 2] 0 [0]).1
      get_orientation_wptC,
   (C5_orientation_split 0 modesW2 wimg20 wimg20 [7] wptC [wpt 2] 0 [0]).2.1,
   (C5_orientation_split 0 modesW2 wimg20 wimg20 [7] wptC [wpt 2] 0 [0]).2.2⟩

/-- C9: get_orientation clears the caller-supplied vector before any other
work, so its result is independent of the vector's previous contents; after a
call whose window bounds check fails the vector is empty even if a previous
call had filled it; and consequently the assign_orientations loop, which
reuses one vector across all points, never carries one point's orientations
over to a later point: its result is independent of the threaded buffer. -/
theorem C9_orientation_buffer_cleared (piV : ℚ)
    (modesOf : Image → Image → ℤ → ℤ → ℤ → ℚ → List ℕ) (ori mag : Image) :
    (∀ (buf1 buf2 : List ℚ) (i0 j0 : ℤ) (sigmaR : ℚ),
      get_orientation piV modesOf buf1 ori mag i0 j0 sigmaR =
        get_orientation piV modesOf buf2 ori mag i0 j0 sigmaR) ∧
    (∀ (buf : List ℚ) (i0 j0 : ℤ) (sigmaR : ℚ),
      ¬ window_in_bounds ori.cols ori.rows (i0 - cTrunc (5 * sigmaR + 1/2))
          (j0 - cTrunc (5 * sigmaR + 1/2)) (cTrunc (5 * sigmaR + 1/2) * 2 + 1) →
      get_orientation piV modesOf buf ori mag i0 j0 sigmaR = []) ∧
    (∀ (buf1 buf2 : List ℚ) (pts : List InterestPoint),
      assign_orientations_aux piV modesOf ori mag buf1 pts =
        assign_orientations_aux piV modesOf ori mag buf2 pts) := by
  refine ⟨fun _ _ _ _ _ => rfl, fun buf i0 j0 sigmaR h => ?_, fun buf1 buf2 pts => ?_⟩
  · simp only [get_orientation]
    rw [if_neg h]
  · cases pts with
    | nil => rfl
    | cons p rest => rfl

/-- Witness for C9 with two different previous buffer contents and an
out-of-bounds window at the origin. -/
theorem C9_orientation_buffer_cleared_witness :
    (get_orientation 0 modesW [7] wimg20 wimg20 3 3 1 =
      get_orientation 0 modesW [9, 4] wimg20 wimg20 3 3 1) ∧
    (get_orientation 0 modesW [7] wimg20 wimg20 0 0 1 = []) ∧
    (assign_orientations_aux 0 modesW wimg20 wimg20 [7] [wpt 1, wpt 2] =
      assign_orientations_aux 0 modesW wimg20 wimg20 [9, 4] [wpt 1, wpt 2]) :=
  ⟨(C9_orientation_buffer_cleared 0 modesW wimg20 wimg20).1 [7] [9, 4] 3 3 1,
   (C9_orientation_buffer_cleared 0 modesW wimg20 wimg20).2.1 [7] 0 0 1
     (by rw [cTrunc_five_one]; decide),
   (C9_orientation_buffer_cleared 0 modesW wimg20 wimg20).2.2 [7] [9, 4]
     [wpt 1, wpt 2]⟩

/-- The eight neighbour offsets of a pixel. -/
def nbhd8 : List (ℤ × ℤ) :=
  [(-1, -1), (0, -1), (1, -1), (-1, 0), (1, 0), (-1, 1), (0, 1), (1, 1)]

/-- Modelled from the spec: the local-maximum condition of the find_peaks
model: the location lies in the interior of the plane and its value strictly
exceeds its eight neighbours. -/
def is_local_max (img : Image) (i j : ℤ) : Prop :=
  1 ≤ i ∧ i ≤ img.cols - 2 ∧ 1 ≤ j ∧ j ≤ img.rows - 2 ∧
  ∀ d ∈ nbhd8, img.px (i + d.1) (j + d.2) < img.px i j

instance decIsLocalMax (img : Image) (i j : ℤ) :
    Decidable (is_local_max img i j) := by
  unfold is_local_max
  infer_instance

end VW
